import Mathlib

/-!
Shallow embedding of `xspec_emcee.py` (the resumable EMCEE sampling driver
for Xspec) and verification of its specification claims.

Modelling conventions:
* Float values are modelled as rationals (`ℚ`); the float operation `10**x`
  is modelled as an abstract function `pow10 : ℚ → ℚ` passed explicitly.
* numpy arrays are modelled as total functions from indices to `ℚ` together
  with explicit shape fields; entries outside the declared shape are
  normalised to `0`.
* `N.random.normal(m, w)` is modelled by an oracle
  `normal : walker → paramIdx → mean → width → ℚ`.
* The external `emcee` sampler's per-step outputs are modelled by an oracle
  `step : ℕ → (positions, lnprobs)`; a `KeyboardInterrupt` is modelled by
  `interrupt : Option ℕ` (the number of completed loop iterations after
  which Ctrl+C fires, if ever); the 10-minute autosave timer by an oracle
  `saveAt : ℕ → Bool`.
* Python exceptions raised before/instead of a result are modelled with
  `Except RunError`.
-/

namespace XspecEmcee

/-- One entry of `pool.parameters` / `pool.parlist`: the keys of the Python
parameter dict that the driver reads. -/
structure Param where
  name : String
  unit : String
  val_init : ℚ
  val_delta : ℚ
  val_sigma : ℚ
  val_hardmin : ℚ
  val_hardmax : ℚ
  log : Bool
  deriving Inhabited, DecidableEq

/-- The draw width chosen in `getInitialParameters` (lines 28-32):
`width = val_delta; swidth = val_sigma*0.1; if swidth > 0 and swidth < width:
width = swidth`. -/
def effectiveWidth (par : Param) : ℚ :=
  let width := par.val_delta
  let swidth := par.val_sigma * (0.1 : ℚ)
  if 0 < swidth ∧ swidth < width then swidth else width

/-- `N.clip(v, lo, hi)` = `min (max v lo) hi`. -/
def npClip (v lo hi : ℚ) : ℚ :=
  min (max v lo) hi

/-- `getInitialParameters(parameters, nwalkers)` (lines 20-39): for each
walker and each parameter, draw `normal(val_init, effectiveWidth)` and clip
the draw into `[val_hardmin, val_hardmax]`.  The loop over `parameters` is
rendered as a loop over positions `i < parameters.length`. -/
def getInitialParameters (parameters : List Param) (nwalkers : ℕ)
    (normal : ℕ → ℕ → ℚ → ℚ → ℚ) : List (List ℚ) :=
  (List.range nwalkers).map fun walker =>
    (List.range parameters.length).map fun i =>
      let par := parameters.getD i default
      npClip (normal walker i par.val_init (effectiveWidth par))
        par.val_hardmin par.val_hardmax

/-- Decimal value of a digit string, as computed by Python `int`. -/
def digitsVal (l : List Char) : ℕ :=
  l.foldl (fun a c => a * 10 + (c.toNat - '0'.toNat)) 0

/-- Model of `re.match(r'([A-Za-z0-9]+)\*([0-9]+)', s)` (line 45).
`re.match` anchors at the start of the string only: it succeeds whenever a
maximal nonempty alphanumeric run is followed by `*` and at least one digit,
regardless of what trails the digits.  Returns `(group(1), int(group(2)))`. -/
def starMatch (s : String) : Option (String × ℕ) :=
  let cs := s.data
  let name := cs.takeWhile Char.isAlphanum
  let rest := cs.drop name.length
  match rest with
  | '*' :: rest2 =>
    let digits := rest2.takeWhile Char.isDigit
    if name ≠ [] ∧ digits ≠ [] then some (String.mk name, digitsVal digits)
    else none
  | _ => none

/-- `expandSystems(systems)` (lines 41-50): each entry matching the
`NAME*K` pattern at its start contributes `K` copies of `NAME`; any other
entry is appended unchanged. -/
def expandSystems : List String → List String
  | [] => []
  | s :: rest =>
    (match starMatch s with
     | some (name, k) => List.replicate k name
     | none => [s]) ++ expandSystems rest

/-- Full-anchor variant of the `NAME*K` pattern: the *entire* entry is
`NAME*K` (alphanumeric name, `*`, digits, nothing after).  This is the
reading of "an entry of the form NAME*K" in the spec's shorthand sentence. -/
def fullStarMatch (s : String) : Option (String × ℕ) :=
  let cs := s.data
  let name := cs.takeWhile Char.isAlphanum
  let rest := cs.drop name.length
  match rest with
  | '*' :: rest2 =>
    if name ≠ [] ∧ rest2 ≠ [] ∧ rest2.all Char.isDigit then
      some (String.mk name, digitsVal rest2)
    else none
  | _ => none

/-- Per-entry expansion as the spec sentence states it: an entry that *is*
`NAME*K` becomes `K` copies of `NAME`, every other entry is passed through
unchanged. -/
def expandOneSpec (s : String) : List String :=
  match fullStarMatch s with
  | some (name, k) => List.replicate k name
  | none => [s]

/-- Contents of an `.npz` checkpoint file: the `chain` and `lnprobability`
arrays with their shapes.  Entries outside the shape are normalised to 0. -/
structure Npz where
  nwalkers : ℕ
  nfilled : ℕ
  ndims : ℕ
  chain : ℕ → ℕ → ℕ → ℚ
  lnprob : ℕ → ℕ → ℚ

/-- `writeNpz(filename, chain, lnprob, maxindex)` (lines 170-182): if
`maxindex < chain.shape[1]` both arrays are truncated to their first
`maxindex` iterations before saving; otherwise they are saved whole.
`cap` is the iteration capacity `chain.shape[1]` of the in-memory buffers. -/
def writeNpz (nwalkers cap ndims : ℕ) (chain : ℕ → ℕ → ℕ → ℚ)
    (lnprob : ℕ → ℕ → ℚ) (maxindex : ℕ) : Npz :=
  let n := if maxindex < cap then maxindex else cap
  { nwalkers := nwalkers
    nfilled := n
    ndims := ndims
    chain := fun w t d =>
      if w < nwalkers ∧ t < n ∧ d < ndims then chain w t d else 0
    lnprob := fun w t => if w < nwalkers ∧ t < n then lnprob w t else 0 }

/-- The `index name unit` column label built at lines 157-161:
`"%i %s %s" % (idx, params[idx-1]['name'], "0" if params[idx-1]['unit'] == ""
else params[idx-1]['unit'])`. -/
def paramLabel (params : List Param) (idx : ℕ) : String :=
  toString idx ++ " " ++ (params.getD (idx - 1) default).name ++ " " ++
    (if (params.getD (idx - 1) default).unit = "" then "0"
     else (params.getD (idx - 1) default).unit)

/-- Contents of the text chain file written by `writeXSpecChain`.  Data rows
are kept as lists of the numbers that are `%g`-printed, one list per line. -/
structure ChainFile where
  comment1 : String
  comment2 : String
  sizeLine : String
  nrows : ℕ
  ncols : ℕ
  labels : List String
  labelLine : String
  rows : List (List ℚ)

/-- `writeXSpecChain(filename, chain, lnprob, params, paridxs)`
(lines 136-168).  `chain` has shape `(nwalkers, niters, ndims)`.  The body:
* `length = nwalkers*niters`, `width = ndims`;
* `column_stack(reshape(chain,(length,width)), reshape(-lnprob*2,(length,1)))`
  — C-order flattening sends `(walker w, iteration t)` to row `w*niters+t`;
* for each column `i` over `enumerate(paridxs)`, if `params[idx-1]['log']`
  the column is replaced by `10**column` (only in the stacked copy:
  `column_stack` copies, so the caller's buffers are untouched);
* the header lines and the space-joined label line.
`pow10` models the float operation `10**x`. -/
def writeXSpecChain (pow10 : ℚ → ℚ) (nwalkers niters ndims : ℕ)
    (chain : ℕ → ℕ → ℕ → ℚ) (lnprob : ℕ → ℕ → ℚ)
    (params : List Param) (paridxs : List ℕ) : ChainFile :=
  let length := nwalkers * niters
  let width := ndims
  let stacked : ℕ → ℕ → ℚ := fun r c =>
    if c < width then chain (r / niters) (r % niters) c
    else -(lnprob (r / niters) (r % niters)) * 2
  let cols : ℕ → ℕ → ℚ := fun r c =>
    if c < paridxs.length ∧ (params.getD (paridxs.getD c 0 - 1) default).log = true
    then pow10 (stacked r c)
    else stacked r c
  let hdr := paridxs.map (paramLabel params) ++ ["Chi-Squared"]
  { comment1 := "! Markov chain file generated by xspec \"chain\" command."
    comment2 := "!    Do not modify, else file may not reload properly."
    sizeLine := "!Length: " ++ toString length ++ "  Width: " ++ toString (width + 1)
    nrows := length
    ncols := width + 1
    labels := hdr
    labelLine := "!" ++ String.intercalate " " hdr
    rows := (List.range length).map fun r =>
      (List.range (width + 1)).map fun c => cols r c }

/-- An observable file-writing action of `doMCMC`, in program order. -/
inductive RunEvent where
  | saveNpz (n : Npz)
  | saveChain (c : ChainFile)

/-- Which kind of file a `RunEvent` writes. -/
inductive RunEventKind where
  | npz
  | chainText
  deriving DecidableEq

/-- Classify a `RunEvent`. -/
def RunEvent.kind : RunEvent → RunEventKind
  | .saveNpz _ => .npz
  | .saveChain _ => .chainText

/-- Python exceptions that escape `doMCMC` before any file is written:
* `emptyAxisIndex`: `chain[:, -1, :]` (line 103) raises `IndexError` when the
  loaded checkpoint has zero filled iterations;
* `negativeDimension`: `N.zeros((nwalkers, niters-start, ndims))` (line 107)
  raises `ValueError` when `niters < start`;
* `shapeMismatch`: `N.concatenate` (line 109) raises `ValueError` when the
  loaded arrays do not have `nwalkers` walkers and `ndims` parameters. -/
inductive RunError where
  | emptyAxisIndex
  | negativeDimension
  | shapeMismatch
  deriving DecidableEq

/-- Result of a `doMCMC` run that reached the sampling loop. -/
structure RunOutput where
  /-- value of `start`: the progress cursor when the loop begins -/
  start : ℕ
  /-- iteration capacity of the in-memory buffers (`chain.shape[1]`) -/
  cap : ℕ
  /-- `pos` handed to `sampler.sample` -/
  startPos : ℕ → ℕ → ℚ
  /-- the chain buffer as the loop begins (after any checkpoint extension) -/
  initChain : ℕ → ℕ → ℕ → ℚ
  /-- the lnprob buffer as the loop begins -/
  initLnprob : ℕ → ℕ → ℚ
  /-- the chain buffer after the loop -/
  chain : ℕ → ℕ → ℕ → ℚ
  /-- the lnprob buffer after the loop -/
  lnprob : ℕ → ℕ → ℚ
  /-- final value of `index` -/
  finalIndex : ℕ
  /-- whether the loop ended by `KeyboardInterrupt` -/
  interrupted : Bool
  /-- the text chain file, when one is written -/
  exportFile : Option ChainFile
  /-- the final checkpoint written at line 134 -/
  checkpoint : Npz
  /-- every file write, in program order -/
  events : List RunEvent

/-- The `try/except/else` sampling loop of `doMCMC` (lines 112-134), given
the buffers `chain0`/`lnprob0` and cursor `start` prepared before it.
Iteration `j` of the loop (`0 ≤ j < niters-start`) writes the oracle output
`step j` at index `start+j`; after it, the autosave timer may trigger a
checkpoint of the filled prefix.  `interrupt = some k` makes
`KeyboardInterrupt` fire after `k` completed iterations (if the loop is
still running); on interrupt the export is skipped, and the final
checkpoint of line 134 is always written. -/
def sampleLoop (nwalkers niters ndims start : ℕ)
    (chain0 : ℕ → ℕ → ℕ → ℚ) (lnprob0 : ℕ → ℕ → ℚ)
    (pos : ℕ → ℕ → ℚ)
    (params : List Param) (paridxs : List ℕ)
    (autosave : Bool) (saveAt : ℕ → Bool)
    (step : ℕ → (ℕ → ℕ → ℚ) × (ℕ → ℚ))
    (interrupt : Option ℕ) (pow10 : ℚ → ℚ) : RunOutput :=
  let total := niters - start
  let stopped := match interrupt with
    | some k => min k total
    | none => total
  let isInt : Bool := match interrupt with
    | some k => decide (k < total)
    | none => false
  let chainF : ℕ → ℕ → ℕ → ℚ := fun w t d =>
    if start ≤ t ∧ t < start + stopped then (step (t - start)).1 w d
    else chain0 w t d
  let lnprobF : ℕ → ℕ → ℚ := fun w t =>
    if start ≤ t ∧ t < start + stopped then (step (t - start)).2 w
    else lnprob0 w t
  let saves := (List.range stopped).filterMap fun j =>
    if autosave && saveAt j then
      some (RunEvent.saveNpz (writeNpz nwalkers niters ndims chainF lnprobF (start + j + 1)))
    else none
  let xport := if isInt then none
    else some (writeXSpecChain pow10 nwalkers niters ndims chainF lnprobF params paridxs)
  let finalNpz := writeNpz nwalkers niters ndims chainF lnprobF (start + stopped)
  { start := start
    cap := niters
    startPos := pos
    initChain := chain0
    initLnprob := lnprob0
    chain := chainF
    lnprob := lnprobF
    finalIndex := start + stopped
    interrupted := isInt
    exportFile := xport
    checkpoint := finalNpz
    events := saves ++
      (match xport with
       | some e => [RunEvent.saveChain e]
       | none => []) ++ [RunEvent.saveNpz finalNpz] }

/-- `doMCMC` (lines 52-134), from the point where the initial population
`p0` is available (line 72 on).  `prev` is the parsed content of the
existing `outnpz` file, read only when `continuerun` is set.  `burnpos`
models the positions returned by the burn-in `sampler.run_mcmc` call.
Fresh run: zero-filled buffers of capacity `niters`, cursor 0.
Resume: cursor `start = prev.nfilled`, starting positions
`chain[:, -1, :]` (the last filled iteration), buffers extended with
zero-filled blanks up to capacity `niters`; the three exceptions of
`RunError` fire, in program order, before any file is written. -/
def doMCMC (nwalkers nburn niters : ℕ) (p0 : ℕ → ℕ → ℚ) (ndims : ℕ)
    (params : List Param) (paridxs : List ℕ)
    (continuerun : Bool) (autosave : Bool)
    (prev : Npz)
    (burnpos : ℕ → ℕ → ℚ)
    (step : ℕ → (ℕ → ℕ → ℚ) × (ℕ → ℚ))
    (saveAt : ℕ → Bool)
    (interrupt : Option ℕ) (pow10 : ℚ → ℚ) : Except RunError RunOutput :=
  let pos0 := if continuerun = false ∧ 0 < nburn then burnpos else p0
  if continuerun then
    if prev.nfilled = 0 then .error .emptyAxisIndex
    else if niters < prev.nfilled then .error .negativeDimension
    else if prev.nwalkers ≠ nwalkers ∨ prev.ndims ≠ ndims then .error .shapeMismatch
    else .ok (sampleLoop nwalkers niters ndims prev.nfilled
      (fun w t d => if t < prev.nfilled then prev.chain w t d else 0)
      (fun w t => if t < prev.nfilled then prev.lnprob w t else 0)
      (fun w d => prev.chain w (prev.nfilled - 1) d)
      params paridxs autosave saveAt step interrupt pow10)
  else .ok (sampleLoop nwalkers niters ndims 0
    (fun _ _ _ => 0) (fun _ _ => 0) pos0
    params paridxs autosave saveAt step interrupt pow10)

/-! ## Helper lemmas -/

theorem getD_map_range {α : Type} (n : ℕ) (f : ℕ → α) (i : ℕ) (d : α)
    (h : i < n) : ((List.range n).map f).getD i d = f i := by
  rw [List.getD_eq_getElem?_getD, List.getElem?_map, List.getElem?_range h]
  rfl

/-! ## Claims -/

/-- C2: for every call to the checkpoint save with buffers of capacity
`cap` and filled cursor `maxindex ≤ cap`, the persisted snapshot contains
exactly the filled prefix: shapes `[nwalkers, maxindex, ndims]` and
`[nwalkers, maxindex]`, the values of the filled prefix, and nothing beyond
the cursor. -/
theorem writeNpz_truncates (nwalkers cap ndims maxindex : ℕ)
    (chain : ℕ → ℕ → ℕ → ℚ) (lnprob : ℕ → ℕ → ℚ)
    (h : maxindex ≤ cap) :
    (writeNpz nwalkers cap ndims chain lnprob maxindex).nwalkers = nwalkers ∧
    (writeNpz nwalkers cap ndims chain lnprob maxindex).nfilled = maxindex ∧
    (writeNpz nwalkers cap ndims chain lnprob maxindex).ndims = ndims ∧
    (∀ w t d, w < nwalkers → t < maxindex → d < ndims →
      (writeNpz nwalkers cap ndims chain lnprob maxindex).chain w t d = chain w t d) ∧
    (∀ w t, w < nwalkers → t < maxindex →
      (writeNpz nwalkers cap ndims chain lnprob maxindex).lnprob w t = lnprob w t) ∧
    (∀ w t d, maxindex ≤ t →
      (writeNpz nwalkers cap ndims chain lnprob maxindex).chain w t d = 0 ∧
      (writeNpz nwalkers cap ndims chain lnprob maxindex).lnprob w t = 0) := by
  have hn : (if maxindex < cap then maxindex else cap) = maxindex := by
    split
    · rfl
    · omega
  refine ⟨rfl, hn, rfl, ?_, ?_, ?_⟩
  · intro w t d hw ht hd
    show (if w < nwalkers ∧ t < (if maxindex < cap then maxindex else cap) ∧ d < ndims
      then chain w t d else 0) = chain w t d
    rw [hn, if_pos ⟨hw, ht, hd⟩]
  · intro w t hw ht
    show (if w < nwalkers ∧ t < (if maxindex < cap then maxindex else cap)
      then lnprob w t else 0) = lnprob w t
    rw [hn, if_pos ⟨hw, ht⟩]
  · intro w t d ht
    constructor
    · show (if w < nwalkers ∧ t < (if maxindex < cap then maxindex else cap) ∧ d < ndims
        then chain w t d else 0) = 0
      rw [hn, if_neg (by omega)]
    · show (if w < nwalkers ∧ t < (if maxindex < cap then maxindex else cap)
        then lnprob w t else 0) = 0
      rw [hn, if_neg (by omega)]

/-- Witness for C2 at a concrete input. -/
theorem writeNpz_truncates_w :
    (2 : ℕ) ≤ 5 ∧
    (writeNpz 1 5 1 (fun _ _ _ => 7) (fun _ _ => 8) 2).nfilled = 2 ∧
    (writeNpz 1 5 1 (fun _ _ _ => 7) (fun _ _ => 8) 2).chain 0 1 0 = 7 ∧
    (writeNpz 1 5 1 (fun _ _ _ => 7) (fun _ _ => 8) 2).chain 0 3 0 = 0 :=
  have h := writeNpz_truncates 1 5 1 2 (fun _ _ _ => 7) (fun _ _ => 8) (by decide)
  ⟨by decide, h.2.1, h.2.2.2.1 0 1 0 (by decide) (by decide) (by decide),
    (h.2.2.2.2.2 0 3 0 (by decide)).1⟩

/-- C8: every value generated by the initial-state builder lies within the
parameter's `[val_hardmin, val_hardmax]`: the normal draw (modelled by the
arbitrary oracle `normal`, so in particular by any out-of-range draw) is
silently clipped into the interval, and the builder is a total function
(no error path, one draw per cell).  The population has `nwalkers` rows of
`parameters.length` values each. -/
theorem initial_in_bounds (parameters : List Param) (nwalkers : ℕ)
    (normal : ℕ → ℕ → ℚ → ℚ → ℚ) (w i : ℕ)
    (hw : w < nwalkers) (hi : i < parameters.length)
    (hb : (parameters.getD i default).val_hardmin ≤
      (parameters.getD i default).val_hardmax) :
    (getInitialParameters parameters nwalkers normal).length = nwalkers ∧
    (∀ row ∈ getInitialParameters parameters nwalkers normal,
      row.length = parameters.length) ∧
    (parameters.getD i default).val_hardmin ≤
      ((getInitialParameters parameters nwalkers normal).getD w []).getD i 0 ∧
    ((getInitialParameters parameters nwalkers normal).getD w []).getD i 0 ≤
      (parameters.getD i default).val_hardmax := by
  refine ⟨by simp [getInitialParameters], ?_, ?_⟩
  · intro row hrow
    simp only [getInitialParameters, List.mem_map] at hrow
    obtain ⟨walker, _, rfl⟩ := hrow
    simp
  · have hval : ((getInitialParameters parameters nwalkers normal).getD w []).getD i 0 =
        npClip (normal w i (parameters.getD i default).val_init
            (effectiveWidth (parameters.getD i default)))
          (parameters.getD i default).val_hardmin
          (parameters.getD i default).val_hardmax := by
      rw [getInitialParameters, getD_map_range nwalkers _ w [] hw,
        getD_map_range parameters.length _ i 0 hi]
    rw [hval]
    unfold npClip
    exact ⟨le_min (le_max_right _ _) hb, min_le_right _ _⟩

/-- Witness for C8 at a concrete input whose draw lands far above the hard
maximum and is clipped back onto it. -/
theorem initial_in_bounds_w :
    (0 : ℕ) < 2 ∧ (0 : ℕ) < 1 ∧ (-1 : ℚ) ≤ 1 ∧
    (-1 : ℚ) ≤
      ((getInitialParameters [⟨"a", "", 0, 1, 0, -1, 1, false⟩] 2
        (fun _ _ m _ => m + 100)).getD 0 []).getD 0 0 ∧
    ((getInitialParameters [⟨"a", "", 0, 1, 0, -1, 1, false⟩] 2
        (fun _ _ m _ => m + 100)).getD 0 []).getD 0 0 ≤ 1 :=
  have h := initial_in_bounds [⟨"a", "", 0, 1, 0, -1, 1, false⟩] 2
    (fun _ _ m _ => m + 100) 0 0 (by decide) (by decide) (by norm_num)
  ⟨by decide, by decide, by norm_num, h.2.2.1, h.2.2.2⟩

/-- C9: the spread handed to the initial-state normal draw is
`val_sigma*0.1` when `0 < val_sigma*0.1 < val_delta`, and `val_delta`
otherwise — including the boundary case `val_sigma*0.1 = val_delta`. -/
theorem effectiveWidth_spec (par : Param) :
    (0 < par.val_sigma * (0.1 : ℚ) ∧ par.val_sigma * (0.1 : ℚ) < par.val_delta →
      effectiveWidth par = par.val_sigma * (0.1 : ℚ)) ∧
    (¬(0 < par.val_sigma * (0.1 : ℚ) ∧ par.val_sigma * (0.1 : ℚ) < par.val_delta) →
      effectiveWidth par = par.val_delta) ∧
    (par.val_sigma * (0.1 : ℚ) = par.val_delta →
      effectiveWidth par = par.val_delta) := by
  have hdef : effectiveWidth par =
      if 0 < par.val_sigma * (0.1 : ℚ) ∧ par.val_sigma * (0.1 : ℚ) < par.val_delta
      then par.val_sigma * (0.1 : ℚ) else par.val_delta := rfl
  refine ⟨?_, ?_, ?_⟩
  · intro h
    rw [hdef, if_pos h]
  · intro h
    rw [hdef, if_neg h]
  · intro h
    rw [hdef, if_neg]
    intro hc
    exact absurd (h ▸ hc.2) (lt_irrefl _)

/-- Witness for C9: both branches at concrete parameters. -/
theorem effectiveWidth_spec_w :
    ((0 : ℚ) < 2 * (0.1 : ℚ) ∧ 2 * (0.1 : ℚ) < 1 ∧
      effectiveWidth ⟨"a", "", 0, 1, 2, 0, 1, false⟩ = 2 * (0.1 : ℚ)) ∧
    (10 * (0.1 : ℚ) = 1 ∧
      effectiveWidth ⟨"a", "", 0, 1, 10, 0, 1, false⟩ = 1) :=
  ⟨⟨by norm_num, by norm_num,
    (effectiveWidth_spec ⟨"a", "", 0, 1, 2, 0, 1, false⟩).1 ⟨by norm_num, by norm_num⟩⟩,
   ⟨by norm_num,
    (effectiveWidth_spec ⟨"a", "", 0, 1, 10, 0, 1, false⟩).2.2 (by norm_num)⟩⟩

theorem takeWhile_append_all {α : Type} (p : α → Bool) (l1 l2 : List α)
    (h : ∀ a ∈ l1, p a = true) :
    (l1 ++ l2).takeWhile p = l1 ++ l2.takeWhile p := by
  induction l1 with
  | nil => simp
  | cons a l ih =>
    simp only [List.cons_append, List.takeWhile_cons,
      h a (List.mem_cons_self a l), if_true]
    rw [ih fun b hb => h b (List.mem_cons_of_mem a hb)]

/-- C10 counterexample: the claim "an entry of the form NAME*K expands to
exactly K copies of NAME and every other entry is passed through unchanged"
is false: `"host*2x"` is not of the form NAME*K (trailing `x`), yet
`re.match` anchors only at the start of the entry, so the code expands it to
`["host", "host"]` instead of passing it through. -/
theorem expandSystems_cx :
    ¬ (∀ l : List String, expandSystems l = l.flatMap expandOneSpec) := by
  intro h
  have h1 := h ["host*2x"]
  have h2 : expandSystems ["host*2x"] = ["host", "host"] := by decide
  have h3 : List.flatMap ["host*2x"] expandOneSpec = ["host*2x"] := by decide
  rw [h2, h3] at h1
  exact absurd h1 (by decide)

/-- C10 (amended): an entry whose longest alphanumeric prefix NAME is
nonempty and is immediately followed by `*` and at least one digit expands
to K copies of NAME, where K is the digit run after the `*`; any trailing
characters after that digit run are silently discarded.  Entries with no
such prefix are passed through unchanged, and the expansion preserves list
order (it distributes over concatenation). -/
theorem expandSystems_amended :
    (∀ (name digits junk : List Char),
      name ≠ [] → (∀ c ∈ name, c.isAlphanum = true) →
      digits ≠ [] → (∀ c ∈ digits, c.isDigit = true) →
      (∀ c ∈ junk.take 1, c.isDigit = false) →
      expandSystems [String.mk (name ++ '*' :: (digits ++ junk))] =
        List.replicate (digitsVal digits) (String.mk name)) ∧
    (∀ s, starMatch s = none → expandSystems [s] = [s]) ∧
    (∀ l1 l2, expandSystems (l1 ++ l2) = expandSystems l1 ++ expandSystems l2) := by
  refine ⟨?_, ?_, ?_⟩
  · intro name digits junk hne hall hdne hdall hjunk
    have hstar : starMatch (String.mk (name ++ '*' :: (digits ++ junk))) =
        some (String.mk name, digitsVal digits) := by
      have hname : (name ++ '*' :: (digits ++ junk)).takeWhile Char.isAlphanum = name := by
        rw [takeWhile_append_all Char.isAlphanum name _ hall]
        simp [List.takeWhile_cons]
      have hdigits : (digits ++ junk).takeWhile Char.isDigit = digits := by
        rw [takeWhile_append_all Char.isDigit digits junk hdall]
        cases junk with
        | nil => simp
        | cons j js =>
          have hj : j.isDigit = false := hjunk j (by simp)
          simp [List.takeWhile_cons, hj]
      show (let cs := (String.mk (name ++ '*' :: (digits ++ junk))).data
        let nm := cs.takeWhile Char.isAlphanum
        let rest := cs.drop nm.length
        match rest with
        | '*' :: rest2 =>
          let ds := rest2.takeWhile Char.isDigit
          if nm ≠ [] ∧ ds ≠ [] then some (String.mk nm, digitsVal ds) else none
        | _ => none) = some (String.mk name, digitsVal digits)
      simp only [hname]
      rw [List.drop_left]
      simp only [hdigits]
      rw [if_pos ⟨hne, hdne⟩]
    show (match starMatch (String.mk (name ++ '*' :: (digits ++ junk))) with
      | some (nm, k) => List.replicate k nm
      | none => [String.mk (name ++ '*' :: (digits ++ junk))]) ++ expandSystems [] =
      List.replicate (digitsVal digits) (String.mk name)
    rw [hstar]
    simp [expandSystems]
  · intro s hm
    show (match starMatch s with
      | some (nm, k) => List.replicate k nm
      | none => [s]) ++ expandSystems [] = [s]
    rw [hm]
    simp [expandSystems]
  · intro l1 l2
    induction l1 with
    | nil => simp [expandSystems]
    | cons s rest ih =>
      show (match starMatch s with
        | some (nm, k) => List.replicate k nm
        | none => [s]) ++ expandSystems (rest ++ l2) = _
      rw [ih]
      simp [expandSystems, List.append_assoc]

/-- Witness for C10's amended statement at concrete entries: a full-form
entry, a trailing-junk entry, and a pass-through entry. -/
theorem expandSystems_amended_w :
    expandSystems ["ab*3"] = ["ab", "ab", "ab"] ∧
    expandSystems ["ab*2junk"] = ["ab", "ab"] ∧
    expandSystems ["local-host"] = ["local-host"] ∧
    expandSystems (["ab*3"] ++ ["local-host"]) =
      expandSystems ["ab*3"] ++ expandSystems ["local-host"] := by
  refine ⟨?_, ?_, ?_, expandSystems_amended.2.2 ["ab*3"] ["local-host"]⟩
  · exact expandSystems_amended.1 ['a', 'b'] ['3'] [] (by decide) (by decide)
      (by decide) (by decide) (by decide)
  · exact expandSystems_amended.1 ['a', 'b'] ['2'] ['j', 'u', 'n', 'k']
      (by decide) (by decide) (by decide) (by decide) (by decide)
  · exact expandSystems_amended.2.1 "local-host" (by decide)

/-- C1: a resumed run whose checkpoint holds `X ≥ 1` filled iterations and
whose requested `niters ≥ X` starts its cursor at `X`, extends both buffers
to capacity `niters` with the new region zero-filled, starts the sampler
from the checkpoint's last filled iteration `X-1`, and leaves the first `X`
iterations of the final chain identical to the checkpoint's. -/
theorem doMCMC_resume (nwalkers nburn niters X : ℕ) (p0 : ℕ → ℕ → ℚ)
    (ndims : ℕ) (params : List Param) (paridxs : List ℕ) (autosave : Bool)
    (prev : Npz) (burnpos : ℕ → ℕ → ℚ)
    (step : ℕ → (ℕ → ℕ → ℚ) × (ℕ → ℚ)) (saveAt : ℕ → Bool)
    (interrupt : Option ℕ) (pow10 : ℚ → ℚ)
    (hX : prev.nfilled = X) (h1 : 1 ≤ X) (h2 : X ≤ niters)
    (hw : prev.nwalkers = nwalkers) (hd : prev.ndims = ndims) :
    ∃ out, doMCMC nwalkers nburn niters p0 ndims params paridxs true autosave
        prev burnpos step saveAt interrupt pow10 = .ok out ∧
      out.start = X ∧
      out.cap = niters ∧
      (∀ w t d, t < X → out.initChain w t d = prev.chain w t d) ∧
      (∀ w t d, X ≤ t → out.initChain w t d = 0) ∧
      (∀ w t, t < X → out.initLnprob w t = prev.lnprob w t) ∧
      (∀ w t, X ≤ t → out.initLnprob w t = 0) ∧
      (∀ w d, out.startPos w d = prev.chain w (X - 1) d) ∧
      (∀ w t d, t < X → out.chain w t d = prev.chain w t d) ∧
      (∀ w t, t < X → out.lnprob w t = prev.lnprob w t) := by
  subst hX hw hd
  have h0 : ¬ prev.nfilled = 0 := by omega
  have hlt : ¬ niters < prev.nfilled := by omega
  have hok : doMCMC prev.nwalkers nburn niters p0 prev.ndims params paridxs
      true autosave prev burnpos step saveAt interrupt pow10 =
      .ok (sampleLoop prev.nwalkers niters prev.ndims prev.nfilled
        (fun w t d => if t < prev.nfilled then prev.chain w t d else 0)
        (fun w t => if t < prev.nfilled then prev.lnprob w t else 0)
        (fun w d => prev.chain w (prev.nfilled - 1) d)
        params paridxs autosave saveAt step interrupt pow10) := by
    simp only [doMCMC]
    rw [if_pos trivial, if_neg h0, if_neg hlt, if_neg (by simp)]
  refine ⟨_, hok, rfl, rfl, ?_, ?_, ?_, ?_, ?_, ?_, ?_⟩
  · intro w t d ht
    show (if t < prev.nfilled then prev.chain w t d else 0) = prev.chain w t d
    rw [if_pos ht]
  · intro w t d ht
    show (if t < prev.nfilled then prev.chain w t d else 0) = 0
    rw [if_neg (by omega)]
  · intro w t ht
    show (if t < prev.nfilled then prev.lnprob w t else 0) = prev.lnprob w t
    rw [if_pos ht]
  · intro w t ht
    show (if t < prev.nfilled then prev.lnprob w t else 0) = 0
    rw [if_neg (by omega)]
  · intro w d
    rfl
  · intro w t d ht
    dsimp only [sampleLoop]
    rw [if_neg (by omega), if_pos ht]
  · intro w t ht
    dsimp only [sampleLoop]
    rw [if_neg (by omega), if_pos ht]

/-- Witness for C1 at a concrete resumed run: checkpoint with 1 filled
iteration, `niters = 2`. -/
theorem doMCMC_resume_w :
    ∃ out, doMCMC 1 0 2 (fun _ _ => 0) 1 [] [] true false
        ⟨1, 1, 1, fun _ _ _ => 3, fun _ _ => 5⟩ (fun _ _ => 0)
        (fun _ => (fun _ _ => 7, fun _ => 9)) (fun _ => false) none
        (fun q => q) = .ok out ∧
      out.start = 1 ∧
      out.startPos 0 0 = 3 ∧
      out.chain 0 0 0 = 3 ∧
      out.lnprob 0 0 = 5 := by
  obtain ⟨out, hok, hs, -, -, -, -, -, hp, hc, hl⟩ :=
    doMCMC_resume 1 0 2 1 (fun _ _ => 0) 1 [] [] false
      ⟨1, 1, 1, fun _ _ _ => 3, fun _ _ => 5⟩ (fun _ _ => 0)
      (fun _ => (fun _ _ => 7, fun _ => 9)) (fun _ => false) none
      (fun q => q) rfl (by decide) (by decide) rfl rfl
  exact ⟨out, hok, hs, hp 0 0, hc 0 0 0 (by decide), hl 0 0 (by decide)⟩

/-- C5 (amended): a resume whose requested `niters` is *strictly less* than
the checkpoint's filled length fails before any sampling begins — the
blank-extension `N.zeros((nwalkers, niters-start, ndims))` raises on the
negative dimension — and no file is written (an `Except.error` result
carries no events). -/
theorem doMCMC_resume_shrink (nwalkers nburn niters X : ℕ) (p0 : ℕ → ℕ → ℚ)
    (ndims : ℕ) (params : List Param) (paridxs : List ℕ) (autosave : Bool)
    (prev : Npz) (burnpos : ℕ → ℕ → ℚ)
    (step : ℕ → (ℕ → ℕ → ℚ) × (ℕ → ℚ)) (saveAt : ℕ → Bool)
    (interrupt : Option ℕ) (pow10 : ℚ → ℚ)
    (hX : prev.nfilled = X) (hlt : niters < X) :
    doMCMC nwalkers nburn niters p0 ndims params paridxs true autosave prev
      burnpos step saveAt interrupt pow10 = .error RunError.negativeDimension := by
  subst hX
  have h0 : ¬ prev.nfilled = 0 := by omega
  simp only [doMCMC]
  rw [if_pos trivial, if_neg h0, if_pos hlt]

/-- Witness for C5's amended statement: resuming a 2-iteration checkpoint
with `niters = 1` fails with the negative-dimension error. -/
theorem doMCMC_resume_shrink_w :
    doMCMC 1 0 1 (fun _ _ => 0) 1 [] [] true false
      ⟨1, 2, 1, fun _ _ _ => 2, fun _ _ => 3⟩ (fun _ _ => 0)
      (fun _ => (fun _ _ => 0, fun _ => 0)) (fun _ => false) none
      (fun q => q) = .error RunError.negativeDimension :=
  doMCMC_resume_shrink 1 0 1 2 (fun _ _ => 0) 1 [] [] false
    ⟨1, 2, 1, fun _ _ _ => 2, fun _ _ => 3⟩ (fun _ _ => 0)
    (fun _ => (fun _ _ => 0, fun _ => 0)) (fun _ => false) none
    (fun q => q) rfl (by decide)

/-- C5 counterexample: the claim also covers `niters` *equal* to the
checkpoint's filled length, but there the code does **not** fail: resuming a
1-iteration checkpoint with `niters = 1` completes normally (zero further
sampler iterations), writes a fresh checkpoint of 1 iteration, and produces
the text export — partial state is created and no error is raised. -/
theorem doMCMC_resume_eq_cx :
    ((doMCMC 1 0 1 (fun _ _ => 0) 1 [] [] true false
        ⟨1, 1, 1, fun _ _ _ => 2, fun _ _ => 3⟩ (fun _ _ => 0)
        (fun _ => (fun _ _ => 0, fun _ => 0)) (fun _ => false) none
        (fun q => q)).toOption.map
      (fun o => (o.interrupted, o.checkpoint.nfilled, o.exportFile.isSome))) =
      some (false, 1, true) := rfl

/-- C3: every run that receives the cancellation signal during sampling —
fresh or resumed — writes a final checkpoint covering exactly the filled
prefix and never invokes the chain exporter.  Concretely, for a run that
ended interrupted: the cursor `finalIndex` is strictly below `niters` and
equals `start + j` when the interrupt fired after `j` new steps; no text
export is produced and no export event appears anywhere in the event
trace; the final checkpoint has shape `(nwalkers, finalIndex, ndims)` and
carries the buffers' filled prefix, whose newly sampled region
`[start, finalIndex)` holds the sampler's step outputs. -/
theorem doMCMC_interrupted (nwalkers nburn niters : ℕ) (p0 : ℕ → ℕ → ℚ)
    (ndims : ℕ) (params : List Param) (paridxs : List ℕ)
    (continuerun autosave : Bool) (prev : Npz) (burnpos : ℕ → ℕ → ℚ)
    (step : ℕ → (ℕ → ℕ → ℚ) × (ℕ → ℚ)) (saveAt : ℕ → Bool)
    (interrupt : Option ℕ) (pow10 : ℚ → ℚ) (out : RunOutput)
    (hok : doMCMC nwalkers nburn niters p0 ndims params paridxs continuerun
      autosave prev burnpos step saveAt interrupt pow10 = .ok out)
    (hint : out.interrupted = true) :
    out.finalIndex < niters ∧
    (∀ j, interrupt = some j → out.finalIndex = out.start + j) ∧
    out.exportFile = none ∧
    (∀ e ∈ out.events, e.kind = RunEventKind.npz) ∧
    out.checkpoint.nwalkers = nwalkers ∧
    out.checkpoint.nfilled = out.finalIndex ∧
    out.checkpoint.ndims = ndims ∧
    (∀ w t d, w < nwalkers → t < out.finalIndex → d < ndims →
      out.checkpoint.chain w t d = out.chain w t d) ∧
    (∀ w t, w < nwalkers → t < out.finalIndex →
      out.checkpoint.lnprob w t = out.lnprob w t) ∧
    (∀ w t d, out.start ≤ t → t < out.finalIndex →
      out.chain w t d = (step (t - out.start)).1 w d) ∧
    (∀ w t, out.start ≤ t → t < out.finalIndex →
      out.lnprob w t = (step (t - out.start)).2 w) := by
  suffices H : ∀ (st : ℕ) (c0 : ℕ → ℕ → ℕ → ℚ) (l0 : ℕ → ℕ → ℚ)
      (ps : ℕ → ℕ → ℚ),
      (sampleLoop nwalkers niters ndims st c0 l0 ps params paridxs autosave
        saveAt step interrupt pow10).interrupted = true →
      (sampleLoop nwalkers niters ndims st c0 l0 ps params paridxs autosave
        saveAt step interrupt pow10).finalIndex < niters ∧
      (∀ j, interrupt = some j →
        (sampleLoop nwalkers niters ndims st c0 l0 ps params paridxs autosave
          saveAt step interrupt pow10).finalIndex =
        (sampleLoop nwalkers niters ndims st c0 l0 ps params paridxs autosave
          saveAt step interrupt pow10).start + j) ∧
      (sampleLoop nwalkers niters ndims st c0 l0 ps params paridxs autosave
        saveAt step interrupt pow10).exportFile = none ∧
      (∀ e ∈ (sampleLoop nwalkers niters ndims st c0 l0 ps params paridxs
        autosave saveAt step interrupt pow10).events,
        e.kind = RunEventKind.npz) ∧
      (sampleLoop nwalkers niters ndims st c0 l0 ps params paridxs autosave
        saveAt step interrupt pow10).checkpoint.nwalkers = nwalkers ∧
      (sampleLoop nwalkers niters ndims st c0 l0 ps params paridxs autosave
        saveAt step interrupt pow10).checkpoint.nfilled =
        (sampleLoop nwalkers niters ndims st c0 l0 ps params paridxs autosave
          saveAt step interrupt pow10).finalIndex ∧
      (sampleLoop nwalkers niters ndims st c0 l0 ps params paridxs autosave
        saveAt step interrupt pow10).checkpoint.ndims = ndims ∧
      (∀ w t d, w < nwalkers →
        t < (sampleLoop nwalkers niters ndims st c0 l0 ps params paridxs
          autosave saveAt step interrupt pow10).finalIndex → d < ndims →
        (sampleLoop nwalkers niters ndims st c0 l0 ps params paridxs autosave
          saveAt step interrupt pow10).checkpoint.chain w t d =
        (sampleLoop nwalkers niters ndims st c0 l0 ps params paridxs autosave
          saveAt step interrupt pow10).chain w t d) ∧
      (∀ w t, w < nwalkers →
        t < (sampleLoop nwalkers niters ndims st c0 l0 ps params paridxs
          autosave saveAt step interrupt pow10).finalIndex →
        (sampleLoop nwalkers niters ndims st c0 l0 ps params paridxs autosave
          saveAt step interrupt pow10).checkpoint.lnprob w t =
        (sampleLoop nwalkers niters ndims st c0 l0 ps params paridxs autosave
          saveAt step interrupt pow10).lnprob w t) ∧
      (∀ w t d,
        (sampleLoop nwalkers niters ndims st c0 l0 ps params paridxs autosave
          saveAt step interrupt pow10).start ≤ t →
        t < (sampleLoop nwalkers niters ndims st c0 l0 ps params paridxs
          autosave saveAt step interrupt pow10).finalIndex →
        (sampleLoop nwalkers niters ndims st c0 l0 ps params paridxs autosave
          saveAt step interrupt pow10).chain w t d =
        (step (t - (sampleLoop nwalkers niters ndims st c0 l0 ps params
          paridxs autosave saveAt step interrupt pow10).start)).1 w d) ∧
      (∀ w t,
        (sampleLoop nwalkers niters ndims st c0 l0 ps params paridxs autosave
          saveAt step interrupt pow10).start ≤ t →
        t < (sampleLoop nwalkers niters ndims st c0 l0 ps params paridxs
          autosave saveAt step interrupt pow10).finalIndex →
        (sampleLoop nwalkers niters ndims st c0 l0 ps params paridxs autosave
          saveAt step interrupt pow10).lnprob w t =
        (step (t - (sampleLoop nwalkers niters ndims st c0 l0 ps params
          paridxs autosave saveAt step interrupt pow10).start)).2 w) by
    unfold doMCMC at hok
    cases continuerun
    case false =>
      rw [if_neg Bool.false_ne_true] at hok
      cases hok
      exact H 0 _ _ _ hint
    case true =>
      rw [if_pos rfl] at hok
      by_cases h0 : prev.nfilled = 0
      · rw [if_pos h0] at hok
        exact Except.noConfusion hok
      · rw [if_neg h0] at hok
        by_cases h1 : niters < prev.nfilled
        · rw [if_pos h1] at hok
          exact Except.noConfusion hok
        · rw [if_neg h1] at hok
          by_cases h2 : prev.nwalkers ≠ nwalkers ∨ prev.ndims ≠ ndims
          · rw [if_pos h2] at hok
            exact Except.noConfusion hok
          · rw [if_neg h2] at hok
            cases hok
            exact H prev.nfilled _ _ _ hint
  intro st c0 l0 ps hint'
  cases interrupt with
  | none =>
    have hf : (false : Bool) = true := hint'
    exact absurd hf (by decide)
  | some j =>
    have hd : decide (j < niters - st) = true := hint'
    have hjlt : j < niters - st := of_decide_eq_true hd
    have hnf : (if st + min j (niters - st) < niters
        then st + min j (niters - st) else niters) =
        st + min j (niters - st) := by
      split <;> omega
    refine ⟨?_, ?_, ?_, ?_, rfl, ?_, rfl, ?_, ?_, ?_, ?_⟩
    · dsimp only [sampleLoop]
      omega
    · intro j' hj'
      cases Option.some.inj hj'
      dsimp only [sampleLoop]
      omega
    · dsimp only [sampleLoop]
      rw [hd]
      simp
    · intro e he
      dsimp only [sampleLoop] at he
      rw [hd] at he
      simp only [eq_self_iff_true, if_true] at he
      rw [List.append_nil] at he
      rcases List.mem_append.mp he with h1 | h2
      · obtain ⟨jj, -, hj⟩ := List.mem_filterMap.mp h1
        by_cases hb : (autosave && saveAt jj) = true
        · rw [if_pos hb] at hj
          have hev2 := Option.some.inj hj
          subst hev2
          rfl
        · rw [if_neg hb] at hj
          exact absurd hj (by simp)
      · rw [List.mem_singleton] at h2
        subst h2
        rfl
    · dsimp only [sampleLoop, writeNpz]
      exact hnf
    · intro w t d hw ht hd'
      dsimp only [sampleLoop] at ht
      dsimp only [sampleLoop, writeNpz]
      rw [hnf, if_pos ⟨hw, ht, hd'⟩]
    · intro w t hw ht
      dsimp only [sampleLoop] at ht
      dsimp only [sampleLoop, writeNpz]
      rw [hnf, if_pos ⟨hw, ht⟩]
    · intro w t d h1 h2
      dsimp only [sampleLoop] at h1 h2
      dsimp only [sampleLoop]
      rw [if_pos ⟨h1, h2⟩]
    · intro w t h1 h2
      dsimp only [sampleLoop] at h1 h2
      dsimp only [sampleLoop]
      rw [if_pos ⟨h1, h2⟩]

/-- Witness for C3 at a concrete *resumed* run: a checkpoint with 1 filled
iteration, `niters = 3`, interrupted after 1 new step — the final
checkpoint holds 2 iterations (the preserved prefix value and the new
sampler output) and no export is produced. -/
theorem doMCMC_interrupted_w :
    ∃ out, doMCMC 1 0 3 (fun _ _ => 0) 1 [] [] true false
        ⟨1, 1, 1, fun _ _ _ => 3, fun _ _ => 5⟩ (fun _ _ => 0)
        (fun _ => (fun _ _ => 7, fun _ => 9)) (fun _ => false) (some 1)
        (fun q => q) = .ok out ∧
      out.exportFile = none ∧
      out.finalIndex = 2 ∧
      out.checkpoint.nfilled = 2 ∧
      out.checkpoint.chain 0 0 0 = 3 ∧
      out.checkpoint.chain 0 1 0 = 7 := by
  obtain ⟨-, hj, hxp, -, -, hnf, -, hcc, -, -, -⟩ :=
    doMCMC_interrupted 1 0 3 (fun _ _ => 0) 1 [] [] true false
      ⟨1, 1, 1, fun _ _ _ => 3, fun _ _ => 5⟩ (fun _ _ => 0)
      (fun _ => (fun _ _ => 7, fun _ => 9)) (fun _ => false) (some 1)
      (fun q => q) _ rfl rfl
  refine ⟨_, rfl, hxp, (hj 1 rfl).trans rfl, hnf.trans ((hj 1 rfl).trans rfl),
    (hcc 0 0 0 (by decide) (by decide) (by decide)).trans rfl,
    (hcc 0 1 0 (by decide) (by decide) (by decide)).trans rfl⟩

/-- C4 counterexample: the claim "the final checkpoint is written first,
then the chain exporter is invoked" is false: in a concrete normally
completed run the trace of file writes is `[text export, npz checkpoint]`,
not `[npz checkpoint, text export]` — `doMCMC` calls `writeXSpecChain`
(line 132, the `else` arm of the `try`) before `writeNpz` (line 134). -/
theorem doMCMC_order_cx :
    ((doMCMC 1 0 1 (fun _ _ => 0) 1 [] [] false false
        ⟨0, 0, 0, fun _ _ _ => 0, fun _ _ => 0⟩ (fun _ _ => 0)
        (fun _ => (fun _ _ => 0, fun _ => 0)) (fun _ => false) none
        (fun q => q)).toOption.map (fun o => o.events.map RunEvent.kind)) =
      some [RunEventKind.chainText, RunEventKind.npz] ∧
    [RunEventKind.chainText, RunEventKind.npz] ≠
      [RunEventKind.npz, RunEventKind.chainText] :=
  ⟨rfl, by decide⟩

/-- C4 (amended): every run that completes normally (the cursor reaches
`niters`) produces both artifacts, in this order: the chain exporter is
invoked first, then the final checkpoint is written; everything earlier in
the event trace is a periodic autosave checkpoint. -/
theorem doMCMC_completed_order (nwalkers nburn niters : ℕ) (p0 : ℕ → ℕ → ℚ)
    (ndims : ℕ) (params : List Param) (paridxs : List ℕ)
    (continuerun autosave : Bool) (prev : Npz) (burnpos : ℕ → ℕ → ℚ)
    (step : ℕ → (ℕ → ℕ → ℚ) × (ℕ → ℚ)) (saveAt : ℕ → Bool)
    (interrupt : Option ℕ) (pow10 : ℚ → ℚ) (out : RunOutput)
    (hok : doMCMC nwalkers nburn niters p0 ndims params paridxs continuerun
      autosave prev burnpos step saveAt interrupt pow10 = .ok out)
    (hni : out.interrupted = false) :
    out.finalIndex = niters ∧
    out.exportFile = some (writeXSpecChain pow10 nwalkers niters ndims
      out.chain out.lnprob params paridxs) ∧
    out.checkpoint = writeNpz nwalkers niters ndims out.chain out.lnprob
      out.finalIndex ∧
    ∃ pre, out.events = pre ++
        [RunEvent.saveChain (writeXSpecChain pow10 nwalkers niters ndims
          out.chain out.lnprob params paridxs),
         RunEvent.saveNpz (writeNpz nwalkers niters ndims out.chain
          out.lnprob out.finalIndex)] ∧
      ∀ ev ∈ pre, ev.kind = RunEventKind.npz := by
  suffices H : ∀ (st : ℕ) (c0 : ℕ → ℕ → ℕ → ℚ) (l0 : ℕ → ℕ → ℚ)
      (ps : ℕ → ℕ → ℚ), st ≤ niters →
      (sampleLoop nwalkers niters ndims st c0 l0 ps params paridxs autosave
        saveAt step interrupt pow10).interrupted = false →
      (sampleLoop nwalkers niters ndims st c0 l0 ps params paridxs autosave
        saveAt step interrupt pow10).finalIndex = niters ∧
      (sampleLoop nwalkers niters ndims st c0 l0 ps params paridxs autosave
        saveAt step interrupt pow10).exportFile =
        some (writeXSpecChain pow10 nwalkers niters ndims
          (sampleLoop nwalkers niters ndims st c0 l0 ps params paridxs
            autosave saveAt step interrupt pow10).chain
          (sampleLoop nwalkers niters ndims st c0 l0 ps params paridxs
            autosave saveAt step interrupt pow10).lnprob params paridxs) ∧
      (sampleLoop nwalkers niters ndims st c0 l0 ps params paridxs autosave
        saveAt step interrupt pow10).checkpoint =
        writeNpz nwalkers niters ndims
          (sampleLoop nwalkers niters ndims st c0 l0 ps params paridxs
            autosave saveAt step interrupt pow10).chain
          (sampleLoop nwalkers niters ndims st c0 l0 ps params paridxs
            autosave saveAt step interrupt pow10).lnprob
          (sampleLoop nwalkers niters ndims st c0 l0 ps params paridxs
            autosave saveAt step interrupt pow10).finalIndex ∧
      ∃ pre, (sampleLoop nwalkers niters ndims st c0 l0 ps params paridxs
          autosave saveAt step interrupt pow10).events = pre ++
          [RunEvent.saveChain (writeXSpecChain pow10 nwalkers niters ndims
            (sampleLoop nwalkers niters ndims st c0 l0 ps params paridxs
              autosave saveAt step interrupt pow10).chain
            (sampleLoop nwalkers niters ndims st c0 l0 ps params paridxs
              autosave saveAt step interrupt pow10).lnprob params paridxs),
           RunEvent.saveNpz (writeNpz nwalkers niters ndims
            (sampleLoop nwalkers niters ndims st c0 l0 ps params paridxs
              autosave saveAt step interrupt pow10).chain
            (sampleLoop nwalkers niters ndims st c0 l0 ps params paridxs
              autosave saveAt step interrupt pow10).lnprob
            (sampleLoop nwalkers niters ndims st c0 l0 ps params paridxs
              autosave saveAt step interrupt pow10).finalIndex)] ∧
        ∀ ev ∈ pre, ev.kind = RunEventKind.npz by
    unfold doMCMC at hok
    cases continuerun
    case false =>
      rw [if_neg Bool.false_ne_true] at hok
      cases hok
      exact H 0 _ _ _ (Nat.zero_le niters) hni
    case true =>
      rw [if_pos rfl] at hok
      by_cases h0 : prev.nfilled = 0
      · rw [if_pos h0] at hok
        exact Except.noConfusion hok
      · rw [if_neg h0] at hok
        by_cases h1 : niters < prev.nfilled
        · rw [if_pos h1] at hok
          exact Except.noConfusion hok
        · rw [if_neg h1] at hok
          by_cases h2 : prev.nwalkers ≠ nwalkers ∨ prev.ndims ≠ ndims
          · rw [if_pos h2] at hok
            exact Except.noConfusion hok
          · rw [if_neg h2] at hok
            cases hok
            exact H prev.nfilled _ _ _ (by omega) hni
  intro st c0 l0 ps hs hni'
  cases interrupt with
  | none =>
    refine ⟨?_, ?_, rfl, ?_⟩
    · dsimp only [sampleLoop]
      omega
    · dsimp only [sampleLoop]
      rw [if_neg Bool.false_ne_true]
    · apply Exists.intro
      constructor
      · dsimp only [sampleLoop]
        rw [if_neg Bool.false_ne_true, List.append_assoc]
        rfl
      · intro ev hev
        obtain ⟨j, -, hj⟩ := List.mem_filterMap.mp hev
        by_cases hb : (autosave && saveAt j) = true
        · rw [if_pos hb] at hj
          have hev2 := Option.some.inj hj
          subst hev2
          rfl
        · rw [if_neg hb] at hj
          exact absurd hj (by simp)
  | some k =>
    have hkn : ¬ k < niters - st := by
      have hd : decide (k < niters - st) = false := hni'
      rwa [decide_eq_false_iff_not] at hd
    have hd : decide (k < niters - st) = false := by
      rw [decide_eq_false_iff_not]
      exact hkn
    refine ⟨?_, ?_, rfl, ?_⟩
    · dsimp only [sampleLoop]
      omega
    · dsimp only [sampleLoop]
      rw [hd, if_neg Bool.false_ne_true]
    · apply Exists.intro
      constructor
      · dsimp only [sampleLoop]
        rw [hd, if_neg Bool.false_ne_true, List.append_assoc]
        rfl
      · intro ev hev
        obtain ⟨j, -, hj⟩ := List.mem_filterMap.mp hev
        by_cases hb : (autosave && saveAt j) = true
        · rw [if_pos hb] at hj
          have hev2 := Option.some.inj hj
          subst hev2
          rfl
        · rw [if_neg hb] at hj
          exact absurd hj (by simp)

/-- Witness for C4's amended statement at a concrete completed run. -/
theorem doMCMC_completed_order_w :
    ∃ out, doMCMC 1 0 1 (fun _ _ => 0) 1 [] [] false false
        ⟨0, 0, 0, fun _ _ _ => 0, fun _ _ => 0⟩ (fun _ _ => 0)
        (fun _ => (fun _ _ => 0, fun _ => 0)) (fun _ => false) none
        (fun q => q) = .ok out ∧
      out.finalIndex = 1 ∧
      (∃ e, out.exportFile = some e) ∧
      (∃ pre e n, out.events = pre ++
        [RunEvent.saveChain e, RunEvent.saveNpz n]) := by
  obtain ⟨hfin, hxp, -, pre, hev, -⟩ :=
    doMCMC_completed_order 1 0 1 (fun _ _ => 0) 1 [] [] false false
      ⟨0, 0, 0, fun _ _ _ => 0, fun _ _ => 0⟩ (fun _ _ => 0)
      (fun _ => (fun _ _ => 0, fun _ => 0)) (fun _ => false) none
      (fun q => q) _ rfl rfl
  exact ⟨_, rfl, hfin, ⟨_, hxp⟩, ⟨pre, _, _, hev⟩⟩

theorem writeXSpecChain_rows_getD (pow10 : ℚ → ℚ) (nwalkers niters ndims : ℕ)
    (chain : ℕ → ℕ → ℕ → ℚ) (lnprob : ℕ → ℕ → ℚ) (params : List Param)
    (paridxs : List ℕ) (r c : ℕ) (hr : r < nwalkers * niters)
    (hc : c < ndims + 1) :
    (((writeXSpecChain pow10 nwalkers niters ndims chain lnprob params
      paridxs).rows.getD r []).getD c 0) =
      if c < paridxs.length ∧
          (params.getD (paridxs.getD c 0 - 1) default).log = true
      then pow10 (if c < ndims then chain (r / niters) (r % niters) c
        else -(lnprob (r / niters) (r % niters)) * 2)
      else (if c < ndims then chain (r / niters) (r % niters) c
        else -(lnprob (r / niters) (r % niters)) * 2) := by
  dsimp only [writeXSpecChain]
  rw [getD_map_range (nwalkers * niters) _ r [] hr,
    getD_map_range (ndims + 1) _ c 0 hc]

/-- C6: in the exported table the final derived column of every row equals
`-2` times that sample's log-probability; every column whose parameter is
flagged `log=true` carries `pow10` (the model of `10**`) of the internal
value, and every other parameter column carries the internal value
unchanged; and the transform is applied only at export time — the sampling
loop's internal buffers and final checkpoint are the same whatever function
the exporter applies (they never leave log-space). -/
theorem export_transform (pow10 : ℚ → ℚ) (nwalkers niters ndims : ℕ)
    (chain : ℕ → ℕ → ℕ → ℚ) (lnprob : ℕ → ℕ → ℚ) (params : List Param)
    (paridxs : List ℕ) (hlen : paridxs.length = ndims) :
    (∀ r, r < nwalkers * niters →
      (((writeXSpecChain pow10 nwalkers niters ndims chain lnprob params
        paridxs).rows.getD r []).getD ndims 0) =
        -(lnprob (r / niters) (r % niters)) * 2) ∧
    (∀ r c, r < nwalkers * niters → c < ndims →
      (params.getD (paridxs.getD c 0 - 1) default).log = true →
      (((writeXSpecChain pow10 nwalkers niters ndims chain lnprob params
        paridxs).rows.getD r []).getD c 0) =
        pow10 (chain (r / niters) (r % niters) c)) ∧
    (∀ r c, r < nwalkers * niters → c < ndims →
      (params.getD (paridxs.getD c 0 - 1) default).log = false →
      (((writeXSpecChain pow10 nwalkers niters ndims chain lnprob params
        paridxs).rows.getD r []).getD c 0) =
        chain (r / niters) (r % niters) c) ∧
    (∀ (f g : ℚ → ℚ) (start : ℕ) (pos : ℕ → ℕ → ℚ) (autosave : Bool)
      (saveAt : ℕ → Bool) (step : ℕ → (ℕ → ℕ → ℚ) × (ℕ → ℚ))
      (interrupt : Option ℕ),
      (sampleLoop nwalkers niters ndims start chain lnprob pos params paridxs
        autosave saveAt step interrupt f).checkpoint =
      (sampleLoop nwalkers niters ndims start chain lnprob pos params paridxs
        autosave saveAt step interrupt g).checkpoint ∧
      (sampleLoop nwalkers niters ndims start chain lnprob pos params paridxs
        autosave saveAt step interrupt f).chain =
      (sampleLoop nwalkers niters ndims start chain lnprob pos params paridxs
        autosave saveAt step interrupt g).chain ∧
      (sampleLoop nwalkers niters ndims start chain lnprob pos params paridxs
        autosave saveAt step interrupt f).lnprob =
      (sampleLoop nwalkers niters ndims start chain lnprob pos params paridxs
        autosave saveAt step interrupt g).lnprob) := by
  refine ⟨?_, ?_, ?_, ?_⟩
  · intro r hr
    rw [writeXSpecChain_rows_getD pow10 nwalkers niters ndims chain lnprob
      params paridxs r ndims hr (by omega)]
    rw [if_neg, if_neg (lt_irrefl ndims)]
    intro hx
    rw [hlen] at hx
    exact absurd hx.1 (lt_irrefl ndims)
  · intro r c hr hc hlog
    rw [writeXSpecChain_rows_getD pow10 nwalkers niters ndims chain lnprob
      params paridxs r c hr (by omega)]
    rw [if_pos ⟨by omega, hlog⟩, if_pos hc]
  · intro r c hr hc hlog
    rw [writeXSpecChain_rows_getD pow10 nwalkers niters ndims chain lnprob
      params paridxs r c hr (by omega)]
    rw [if_neg, if_pos hc]
    intro hx
    rw [hlog] at hx
    exact Bool.false_ne_true hx.2
  · intro f g start pos autosave saveAt step interrupt
    exact ⟨rfl, rfl, rfl⟩

/-- Witness for C6: one walker, one iteration, one log-flagged parameter;
the exported row is `[pow10 3, -8]` for internal value `3` and
log-probability `4`, and the checkpoint ignores the export transform. -/
theorem export_transform_w :
    ((([(⟨"p", "u", 0, 0, 0, 0, 0, true⟩ : Param)].getD
        (([1].getD 0 0) - 1) default).log = true) ∧
    (((writeXSpecChain (fun q => q * q) 1 1 1 (fun _ _ _ => 3)
      (fun _ _ => 4) [⟨"p", "u", 0, 0, 0, 0, 0, true⟩] [1]).rows.getD 0
        []).getD 0 0) = (fun q => q * q) 3) ∧
    (((writeXSpecChain (fun q => q * q) 1 1 1 (fun _ _ _ => 3)
      (fun _ _ => 4) [⟨"p", "u", 0, 0, 0, 0, 0, true⟩] [1]).rows.getD 0
        []).getD 1 0) = -(4 : ℚ) * 2 := by
  have h := export_transform (fun q => q * q) 1 1 1 (fun _ _ _ => 3)
    (fun _ _ => 4) [⟨"p", "u", 0, 0, 0, 0, 0, true⟩] [1] rfl
  exact ⟨⟨rfl, h.2.1 0 0 (by decide) (by decide) rfl⟩, h.1 0 (by decide)⟩

/-- C7: the exported table has exactly `nwalkers*niters` data rows of
`ndims+1` columns; the sample of walker `w`, iteration `t` lands in row
`w*niters + t` (walker-major, iteration-minor flattening) with one column
per parameter in `paridxs` order followed by the derived `-2·lnprob`
column; the size line states the row count and column count `ndims+1`; the
label line labels each column `index name unit` with `"0"` standing in for
an empty unit, and ends with the fixed `Chi-Squared` label. -/
theorem export_shape (pow10 : ℚ → ℚ) (nwalkers niters ndims : ℕ)
    (chain : ℕ → ℕ → ℕ → ℚ) (lnprob : ℕ → ℕ → ℚ) (params : List Param)
    (paridxs : List ℕ) (hlen : paridxs.length = ndims) :
    (writeXSpecChain pow10 nwalkers niters ndims chain lnprob params
      paridxs).nrows = nwalkers * niters ∧
    (writeXSpecChain pow10 nwalkers niters ndims chain lnprob params
      paridxs).ncols = ndims + 1 ∧
    (writeXSpecChain pow10 nwalkers niters ndims chain lnprob params
      paridxs).rows.length = nwalkers * niters ∧
    (∀ row ∈ (writeXSpecChain pow10 nwalkers niters ndims chain lnprob params
      paridxs).rows, row.length = ndims + 1) ∧
    (∀ w t d, w < nwalkers → t < niters → d < ndims →
      (((writeXSpecChain pow10 nwalkers niters ndims chain lnprob params
        paridxs).rows.getD (w * niters + t) []).getD d 0) =
        (if (params.getD (paridxs.getD d 0 - 1) default).log = true
         then pow10 (chain w t d) else chain w t d)) ∧
    (∀ w t, w < nwalkers → t < niters →
      (((writeXSpecChain pow10 nwalkers niters ndims chain lnprob params
        paridxs).rows.getD (w * niters + t) []).getD ndims 0) =
        -(lnprob w t) * 2) ∧
    (writeXSpecChain pow10 nwalkers niters ndims chain lnprob params
      paridxs).sizeLine = "!Length: " ++ toString (nwalkers * niters) ++
      "  Width: " ++ toString (ndims + 1) ∧
    (writeXSpecChain pow10 nwalkers niters ndims chain lnprob params
      paridxs).labels.length = ndims + 1 ∧
    (∀ c, c < ndims →
      (writeXSpecChain pow10 nwalkers niters ndims chain lnprob params
        paridxs).labels.getD c "" =
        toString (paridxs.getD c 0) ++ " " ++
        (params.getD (paridxs.getD c 0 - 1) default).name ++ " " ++
        (if (params.getD (paridxs.getD c 0 - 1) default).unit = "" then "0"
         else (params.getD (paridxs.getD c 0 - 1) default).unit)) ∧
    (writeXSpecChain pow10 nwalkers niters ndims chain lnprob params
      paridxs).labels.getD ndims "" = "Chi-Squared" := by
  have hrow : ∀ w t, w < nwalkers → t < niters →
      w * niters + t < nwalkers * niters := by
    intro w t hw ht
    calc w * niters + t < w * niters + niters := by omega
    _ = (w + 1) * niters := by ring
    _ ≤ nwalkers * niters := Nat.mul_le_mul_right niters (by omega)
  have hdiv : ∀ w t, t < niters → (w * niters + t) / niters = w := by
    intro w t ht
    have hpos : 0 < niters := by omega
    rw [Nat.mul_comm, Nat.mul_add_div hpos, Nat.div_eq_of_lt ht, Nat.add_zero]
  have hmod : ∀ w t, t < niters → (w * niters + t) % niters = t := by
    intro w t ht
    rw [Nat.mul_comm, Nat.mul_add_mod]
    exact Nat.mod_eq_of_lt ht
  refine ⟨rfl, rfl, ?_, ?_, ?_, ?_, rfl, ?_, ?_, ?_⟩
  · dsimp only [writeXSpecChain]
    rw [List.length_map, List.length_range]
  · intro row hrow'
    dsimp only [writeXSpecChain] at hrow'
    obtain ⟨r, -, rfl⟩ := List.mem_map.mp hrow'
    rw [List.length_map, List.length_range]
  · intro w t d hw ht hd
    rw [writeXSpecChain_rows_getD pow10 nwalkers niters ndims chain lnprob
      params paridxs _ d (hrow w t hw ht) (by omega), hdiv w t ht, hmod w t ht]
    by_cases hlog : (params.getD (paridxs.getD d 0 - 1) default).log = true
    · rw [if_pos ⟨by omega, hlog⟩, if_pos hd, if_pos hlog]
    · rw [if_neg (fun hx => hlog hx.2), if_pos hd, if_neg hlog]
  · intro w t hw ht
    rw [writeXSpecChain_rows_getD pow10 nwalkers niters ndims chain lnprob
      params paridxs _ ndims (hrow w t hw ht) (by omega), hdiv w t ht,
      hmod w t ht]
    rw [if_neg, if_neg (lt_irrefl ndims)]
    intro hx
    rw [hlen] at hx
    exact absurd hx.1 (lt_irrefl ndims)
  · dsimp only [writeXSpecChain]
    rw [List.length_append, List.length_map, hlen]
    rfl
  · intro c hc
    have hc' : c < paridxs.length := by omega
    have hgd : paridxs.getD c 0 = paridxs[c] := by
      rw [List.getD_eq_getElem?_getD,
        (List.getElem?_eq_some_getElem_iff paridxs c hc').mpr trivial]
      rfl
    dsimp only [writeXSpecChain]
    rw [List.getD_eq_getElem?_getD,
      List.getElem?_append_left (by rw [List.length_map]; exact hc'),
      List.getElem?_map,
      (List.getElem?_eq_some_getElem_iff paridxs c hc').mpr trivial, hgd]
    rfl
  · dsimp only [writeXSpecChain]
    rw [List.getD_eq_getElem?_getD,
      List.getElem?_append_right (by rw [List.length_map]; omega)]
    rw [List.length_map, hlen, Nat.sub_self]
    rfl

/-- Witness for C7: 2 walkers, 2 iterations, 1 parameter named with an
empty unit; checks the shape facts, the flattening of walker 1 iteration 0,
and the label defaulting. -/
theorem export_shape_w :
    (writeXSpecChain (fun q => q) 2 2 1 (fun _ _ _ => 7)
      (fun _ _ => 4) [⟨"p", "", 0, 0, 0, 0, 0, false⟩] [1]).rows.length = 4 ∧
    (((writeXSpecChain (fun q => q) 2 2 1 (fun _ _ _ => 7)
      (fun _ _ => 4) [⟨"p", "", 0, 0, 0, 0, 0, false⟩] [1]).rows.getD
        (1 * 2 + 0) []).getD 0 0) =
      (if ([(⟨"p", "", 0, 0, 0, 0, 0, false⟩ : Param)].getD
          (([1].getD 0 0) - 1) default).log = true
       then (fun q => q) (7 : ℚ) else (7 : ℚ)) ∧
    (writeXSpecChain (fun q => q) 2 2 1 (fun _ _ _ => 7)
      (fun _ _ => 4) [⟨"p", "", 0, 0, 0, 0, 0, false⟩] [1]).labels.getD 0 ""
      = toString (([1] : List ℕ).getD 0 0) ++ " " ++
        ([(⟨"p", "", 0, 0, 0, 0, 0, false⟩ : Param)].getD
          (([1].getD 0 0) - 1) default).name ++ " " ++
        (if ([(⟨"p", "", 0, 0, 0, 0, 0, false⟩ : Param)].getD
            (([1].getD 0 0) - 1) default).unit = "" then "0"
         else ([(⟨"p", "", 0, 0, 0, 0, 0, false⟩ : Param)].getD
            (([1].getD 0 0) - 1) default).unit) ∧
    (writeXSpecChain (fun q => q) 2 2 1 (fun _ _ _ => 7)
      (fun _ _ => 4) [⟨"p", "", 0, 0, 0, 0, 0, false⟩] [1]).labels.getD 1 ""
      = "Chi-Squared" := by
  have h := export_shape (fun q => q) 2 2 1 (fun _ _ _ => 7)
    (fun _ _ => 4) [⟨"p", "", 0, 0, 0, 0, 0, false⟩] [1] rfl
  exact ⟨h.2.2.1, h.2.2.2.2.1 1 0 0 (by decide) (by decide) (by decide),
    h.2.2.2.2.2.2.2.2.1 0 (by decide), h.2.2.2.2.2.2.2.2.2⟩

end XspecEmcee
